import Mathlib

/-!
Shallow embedding of the string-function library of `src/src/strings.rs`
(a Rust port of the sprig template helpers), together with proofs about it.

Rust `String`s are modelled as lists of bytes (`List Nat`, each element
`< 256`); a Rust `String` is always valid UTF-8, which is captured by the
executable predicate `validUTF8`.  Rust byte-slicing `&s[a..b]` panics when
`a` or `b` is not a UTF-8 character boundary; a panic is modelled as `none`,
so every function that slices returns an `Option`.  Machine-integer casts
(`i64 as usize`) are modelled explicitly modulo `2 ^ 64`.
-/

/-- The wrapping cast `x as usize` applied to an `i64` value `x`
(64-bit target, two's complement). -/
def usizeOfI64 (x : Int) : Nat :=
  (x % (2 : Int) ^ 64).toNat

/-- Decidable range test on bytes, used by the UTF-8 predicates. -/
def inRange (lo hi b : Nat) : Bool :=
  decide (lo ≤ b ∧ b ≤ hi)

/-- Is `b` a UTF-8 continuation byte (`0x80 ..= 0xBF`)? -/
def contB (b : Nat) : Bool :=
  inRange 128 191 b

/-- Validity of a byte list as UTF-8, following RFC 3629 exactly as
`str::from_utf8` checks it (shortest form, no surrogates, max U+10FFFF). -/
def validUTF8 : List Nat → Bool
  | [] => true
  | b :: rest =>
    if b < 128 then validUTF8 rest
    else if inRange 194 223 b then
      match rest with
      | c :: r2 => contB c && validUTF8 r2
      | [] => false
    else if b = 224 then
      match rest with
      | c :: d :: r2 => inRange 160 191 c && contB d && validUTF8 r2
      | _ => false
    else if inRange 225 236 b then
      match rest with
      | c :: d :: r2 => contB c && contB d && validUTF8 r2
      | _ => false
    else if b = 237 then
      match rest with
      | c :: d :: r2 => inRange 128 159 c && contB d && validUTF8 r2
      | _ => false
    else if inRange 238 239 b then
      match rest with
      | c :: d :: r2 => contB c && contB d && validUTF8 r2
      | _ => false
    else if b = 240 then
      match rest with
      | c :: d :: e :: r2 => inRange 144 191 c && contB d && contB e && validUTF8 r2
      | _ => false
    else if inRange 241 243 b then
      match rest with
      | c :: d :: e :: r2 => contB c && contB d && contB e && validUTF8 r2
      | _ => false
    else if b = 244 then
      match rest with
      | c :: d :: e :: r2 => inRange 128 143 c && contB d && contB e && validUTF8 r2
      | _ => false
    else false

/-- Rust's `str::is_char_boundary`: `0` is always a boundary, an index
holding a byte is a boundary iff that byte is not a continuation byte, and
an out-of-range index is a boundary only when it equals the length. -/
def isCharBoundary (s : List Nat) (i : Nat) : Bool :=
  if i = 0 then true
  else
    match s.get? i with
    | some b => !contB b
    | none => decide (i = s.length)

/-- Rust byte slicing `&s[a..b]` on a `str`: the bytes from `a` (inclusive)
to `b` (exclusive), panicking (`none`) unless `a ≤ b ≤ s.len()` and both
ends are character boundaries. -/
def rustSlice (s : List Nat) (a b : Nat) : Option (List Nat) :=
  if a ≤ b ∧ b ≤ s.length ∧ isCharBoundary s a ∧ isCharBoundary s b then
    some ((s.take b).drop a)
  else
    none

/-- All bytes of `s` are ASCII (`< 0x80`). -/
def allAscii (s : List Nat) : Bool :=
  s.all fun b => b < 128

/-- The UTF-8 bytes of `"..."`. -/
def dots : List Nat := [46, 46, 46]

/-- The clamp of `substring`'s first argument:
`let start = if start < 0 { 0 } else { start as usize };`. -/
def substringStart (start : Int) : Nat :=
  if start < 0 then 0 else usizeOfI64 start

/-- The clamp of `substring`'s second argument:
`let len = if len < 0 { s.len() } else { len as usize };`. -/
def substringLen (len : Int) (s : List Nat) : Nat :=
  if len < 0 then s.length else usizeOfI64 len

/-- Function `substring` from `strings.rs` (lines 205-216): clamp `start` and `len`,
return `s` unchanged when `start > len || start > s.len() || len > s.len()`,
otherwise the byte slice `s[start..len]` (which can panic on a non-boundary
offset, modelled as `none`). -/
def substring (start len : Int) (s : List Nat) : Option (List Nat) :=
  if substringStart start > substringLen len s ∨ substringStart start > s.length ∨
      substringLen len s > s.length then
    some s
  else
    rustSlice s (substringStart start) (substringLen len s)

/-- Function `abbrev` from `strings.rs` (lines 56-65); named `abbrevFn` because
`abbrev` is a Lean keyword.  Returns `s` unchanged when
`width < 4 || s.len() < width as usize`, otherwise the first `width - 3`
bytes of `s` followed by `"..."`. -/
def abbrevFn (width : Int) (s : List Nat) : Option (List Nat) :=
  if width < 4 ∨ s.length < usizeOfI64 width then some s
  else (rustSlice s 0 (usizeOfI64 width - 3)).map (· ++ dots)

/-- Function `trunc` from `strings.rs` (lines 157-166): `s` unchanged when
`len < 0 || (len as usize) > s.len()`, otherwise the first `len` bytes. -/
def trunc (len : Int) (s : List Nat) : Option (List Nat) :=
  if len < 0 ∨ usizeOfI64 len > s.length then some s
  else rustSlice s 0 (usizeOfI64 len)

/-- Function `abbrevboth` from `strings.rs` (lines 67-84). -/
def abbrevboth (left right : Int) (s : List Nat) : Option (List Nat) :=
  let offset := min (usizeOfI64 left) s.length
  let maxWidth := min (usizeOfI64 right) s.length
  if maxWidth < 4 ∨ (offset > 0 ∧ maxWidth < 7) ∨ s.length ≤ maxWidth then
    some s
  else if offset ≤ 4 then
    (rustSlice s 0 (maxWidth - 3)).map (· ++ dots)
  else if offset + maxWidth - 3 < s.length then
    (rustSlice s offset (offset + maxWidth - 6)).map fun m => dots ++ m ++ dots
  else
    (rustSlice s (s.length - (maxWidth - 3)) s.length).map fun m => dots ++ m

/-- The behaviour of `abbrevboth` as the specification words it, with
`offset = min(left, len(s))` and `maxWidth = min(right, len(s))` taken over
the integers (not over the wrapped `usize` cast). -/
def specAbbrevboth (left right : Int) (s : List Nat) : List Nat :=
  let offset : Int := min left (s.length : Int)
  let maxWidth : Int := min right (s.length : Int)
  if maxWidth < 4 ∨ (offset > 0 ∧ maxWidth < 7) ∨ (s.length : Int) ≤ maxWidth then
    s
  else if offset ≤ 4 then
    s.take (maxWidth.toNat - 3) ++ dots
  else if offset + maxWidth - 3 < (s.length : Int) then
    dots ++ (s.take (offset.toNat + maxWidth.toNat - 6)).drop offset.toNat ++ dots
  else
    dots ++ s.drop (s.length - (maxWidth.toNat - 3))

/-! ## Helper lemmas about the byte-string model -/

theorem usizeOfI64_eq_toNat {x : Int} (h0 : 0 ≤ x) (h1 : x < 2 ^ 63) :
    usizeOfI64 x = x.toNat := by
  unfold usizeOfI64
  omega

theorem allAscii_boundary {s : List Nat} (ha : allAscii s = true) {i : Nat}
    (hi : i ≤ s.length) : isCharBoundary s i = true := by
  unfold isCharBoundary
  split
  · rfl
  · rcases hget : s.get? i with _ | b
    · simp only [List.get?_eq_none] at hget
      simp
      omega
    · have hb : b < 128 := by
        have hmem := List.get?_mem hget
        have := (List.all_eq_true.mp ha) b hmem
        simpa using this
      simp [contB, inRange]
      omega

theorem isCharBoundary_zero (s : List Nat) : isCharBoundary s 0 = true := by
  unfold isCharBoundary
  simp

theorem rustSlice_eq {s : List Nat} {a b : Nat} (hab : a ≤ b) (hbl : b ≤ s.length)
    (hca : isCharBoundary s a = true) (hcb : isCharBoundary s b = true) :
    rustSlice s a b = some ((s.take b).drop a) := by
  unfold rustSlice
  rw [if_pos ⟨hab, hbl, hca, hcb⟩]

theorem allAscii_rustSlice {s : List Nat} (ha : allAscii s = true) {a b : Nat}
    (hab : a ≤ b) (hbl : b ≤ s.length) :
    rustSlice s a b = some ((s.take b).drop a) :=
  rustSlice_eq hab hbl (allAscii_boundary ha (le_trans hab hbl)) (allAscii_boundary ha hbl)

/-! ## C1: substring -/

/-- C1 (corrected).  For every `start`, `len` and string `s`, *provided the
clamped start and end offsets fall on UTF-8 character boundaries whenever
they are in range*, `substring start len s` does not panic: it returns
either `s` unchanged or the byte slice `s[start..len]` of `s`.  (Without the
boundary proviso the code panics; see the counterexample.) -/
theorem substring_no_panic (start len : Int) (s : List Nat)
    (hb : substringStart start ≤ substringLen len s → substringLen len s ≤ s.length →
      isCharBoundary s (substringStart start) = true ∧
      isCharBoundary s (substringLen len s) = true) :
    ∃ r, substring start len s = some r ∧
      (r = s ∨ r = (s.take (substringLen len s)).drop (substringStart start)) := by
  unfold substring
  by_cases hg : substringStart start > substringLen len s ∨
      substringStart start > s.length ∨ substringLen len s > s.length
  · exact ⟨s, by rw [if_pos hg], Or.inl rfl⟩
  · push_neg at hg
    obtain ⟨h1, h2, h3⟩ := hg
    obtain ⟨hca, hcb⟩ := hb h1 h3
    refine ⟨_, ?_, Or.inr rfl⟩
    rw [if_neg (by push_neg; exact ⟨h1, h2, h3⟩), rustSlice_eq h1 h3 hca hcb]

/-- Witness for C1 at `substring 1 5 "foobar"` (the repository's own test
input, returning `"ooba"`). -/
theorem substring_no_panic_witness :
    ∃ r, substring 1 5 [102, 111, 111, 98, 97, 114] = some r ∧
      (r = [102, 111, 111, 98, 97, 114] ∨
        r = (([102, 111, 111, 98, 97, 114] : List Nat).take
          (substringLen 5 [102, 111, 111, 98, 97, 114])).drop (substringStart 1)) :=
  substring_no_panic 1 5 [102, 111, 111, 98, 97, 114] (by decide)

/-- Counterexample for C1 as frozen: on the valid UTF-8 string `"é"`
(bytes `[0xC3, 0xA9]`), `substring 0 1 "é"` passes every defensive guard and
then slices at byte offset 1, which is not a character boundary — the Rust
code panics (`none`) instead of returning a value. -/
theorem substring_panics_on_multibyte :
    validUTF8 [195, 169] = true ∧ substring 0 1 [195, 169] = none := by
  constructor
  · decide
  · decide

/-! ## C9: trunc -/

/-- C9 (corrected).  For every integer `len` (in `i64` range) and every
string `s` *whose byte at offset `len` is a character boundary when the
slice is taken*, `trunc len s` returns `s` unchanged when `len < 0` or
`len > len(s)`, and otherwise the first `len` bytes of `s`.  (Without the
boundary proviso the code panics; see the counterexample.) -/
theorem trunc_spec (len : Int) (s : List Nat) (h64 : len < 2 ^ 63)
    (hb : 0 ≤ len → len.toNat ≤ s.length → isCharBoundary s len.toNat = true) :
    trunc len s = some (if len < 0 ∨ (s.length : Int) < len then s else s.take len.toNat) := by
  unfold trunc
  by_cases hneg : len < 0
  · rw [if_pos (Or.inl hneg), if_pos (Or.inl hneg)]
  · push_neg at hneg
    rw [usizeOfI64_eq_toNat hneg h64]
    by_cases hlen : len.toNat > s.length
    · rw [if_pos (Or.inr hlen), if_pos (Or.inr (by omega))]
    · push_neg at hlen
      rw [if_neg (by omega), if_neg (by omega),
        rustSlice_eq (Nat.zero_le _) hlen (isCharBoundary_zero s) (hb hneg hlen)]
      simp

/-- Witness for C9 at `trunc 3 "foobar" = "foo"`. -/
theorem trunc_spec_witness :
    trunc 3 [102, 111, 111, 98, 97, 114] = some [102, 111, 111] :=
  (trunc_spec 3 [102, 111, 111, 98, 97, 114] (by decide) (by decide)).trans (by decide)

/-- Counterexample for C9 as frozen: on the valid UTF-8 string `"é"`
(bytes `[0xC3, 0xA9]`), `trunc 1 "é"` has `0 ≤ 1 ≤ len(s)`, so the claim
demands the first byte `[0xC3]`, but the Rust code panics (`none`) because
offset 1 is not a character boundary. -/
theorem trunc_panics_on_multibyte :
    validUTF8 [195, 169] = true ∧ trunc 1 [195, 169] = none := by
  constructor
  · decide
  · decide

/-! ## C5: abbrev -/

/-- C5 (corrected).  For every integer `width` (in `i64` range) and every
*ASCII* string `s`, `abbrev width s` never returns a string whose byte
length exceeds `max (len s) width`; it returns `s` unchanged whenever
`width < 4` or `len s < width`, and otherwise the first `width - 3` bytes of
`s` followed by `"..."`.  (On non-ASCII strings the slice can hit a
non-boundary offset and the code panics; see the counterexample.) -/
theorem abbrev_spec (width : Int) (s : List Nat) (hw : width < 2 ^ 63)
    (ha : allAscii s = true) :
    ∃ r, abbrevFn width s = some r ∧
      (r.length : Int) ≤ max (s.length : Int) width ∧
      ((width < 4 ∨ (s.length : Int) < width) → r = s) ∧
      (4 ≤ width → width ≤ (s.length : Int) → r = s.take (width.toNat - 3) ++ dots) := by
  unfold abbrevFn
  by_cases h4 : width < 4
  · refine ⟨s, by rw [if_pos (Or.inl h4)], by omega, fun _ => rfl, fun h _ => absurd h (by omega)⟩
  · push_neg at h4
    rw [usizeOfI64_eq_toNat (by omega) hw]
    by_cases hlen : s.length < width.toNat
    · refine ⟨s, by rw [if_pos (Or.inr hlen)], by omega, fun _ => rfl, fun _ h => absurd h (by omega)⟩
    · push_neg at hlen
      rw [if_neg (by omega),
        allAscii_rustSlice ha (Nat.zero_le _) (le_trans (by omega) hlen)]
      refine ⟨s.take (width.toNat - 3) ++ dots, by simp, ?_, fun h => absurd h (by omega), fun _ _ => rfl⟩
      have htake : (s.take (width.toNat - 3)).length = width.toNat - 3 := by
        simp
        omega
      simp only [List.length_append, htake, dots]
      simp
      omega

/-- Witness for C5 at the specification's own scenario
`abbrev 4 "foobar" = "f..."`. -/
theorem abbrev_spec_witness :
    ∃ r, abbrevFn 4 [102, 111, 111, 98, 97, 114] = some r ∧
      (r.length : Int) ≤ max (([102, 111, 111, 98, 97, 114] : List Nat).length : Int) 4 ∧
      ((4 : Int) < 4 ∨ (([102, 111, 111, 98, 97, 114] : List Nat).length : Int) < 4 → r = [102, 111, 111, 98, 97, 114]) ∧
      ((4 : Int) ≤ 4 → (4 : Int) ≤ (([102, 111, 111, 98, 97, 114] : List Nat).length : Int) →
        r = ([102, 111, 111, 98, 97, 114] : List Nat).take ((4 : Int).toNat - 3) ++ dots) :=
  abbrev_spec 4 [102, 111, 111, 98, 97, 114] (by decide) (by decide)

/-- Counterexample for C5 as frozen: on the valid UTF-8 string `"éé"`
(bytes `[0xC3, 0xA9, 0xC3, 0xA9]`), `abbrev 4 "éé"` has `width = 4 ≥ 4` and
`len(s) = 4 ≥ width`, so the claim demands the first byte plus `"..."`, but
the Rust code panics (`none`) because byte offset 1 is not a character
boundary. -/
theorem abbrev_panics_on_multibyte :
    validUTF8 [195, 169, 195, 169] = true ∧ abbrevFn 4 [195, 169, 195, 169] = none := by
  constructor
  · decide
  · decide

/-! ## C4: abbrevboth -/

/-- C4 (corrected).  For `0 ≤ left` (the frozen claim's integer
`min(left, len s)` diverges from the code's wrapped `usize` cast when
`left < 0`; see the counterexample) and ASCII `s` (otherwise the slices can
panic, as for `abbrev`), `abbrevboth` behaves exactly as the claim
describes, i.e. agrees with `specAbbrevboth`.  In particular
`abbrevboth 5 7 "foobarfoobar" = "...r..."` (see the witness). -/
theorem abbrevboth_spec (left right : Int) (s : List Nat)
    (hl0 : 0 ≤ left) (hl : left < 2 ^ 63)
    (hr0 : -2 ^ 63 ≤ right) (hr : right < 2 ^ 63)
    (hs : (s.length : Int) < 2 ^ 63) (ha : allAscii s = true) :
    abbrevboth left right s = some (specAbbrevboth left right s) := by
  simp only [abbrevboth, specAbbrevboth]
  by_cases hrneg : right < 0
  · have hur : s.length ≤ usizeOfI64 right := by
      unfold usizeOfI64
      omega
    rw [if_pos (Or.inr (Or.inr (by omega))), if_pos (Or.inl (by omega))]
  · push_neg at hrneg
    rw [usizeOfI64_eq_toNat hrneg hr, usizeOfI64_eq_toNat hl0 hl]
    set o := min left.toNat s.length with ho
    set m := min right.toNat s.length with hm
    have hoI : min left (s.length : Int) = (o : Int) := by omega
    have hmI : min right (s.length : Int) = (m : Int) := by omega
    rw [hoI, hmI]
    by_cases h1 : m < 4 ∨ (o > 0 ∧ m < 7) ∨ s.length ≤ m
    · rw [if_pos h1,
        if_pos (show (↑m : ℤ) < 4 ∨ (↑o : ℤ) > 0 ∧ (↑m : ℤ) < 7 ∨ (↑s.length : ℤ) ≤ (↑m : ℤ) by
          omega)]
    · rw [if_neg h1,
        if_neg (show ¬((↑m : ℤ) < 4 ∨ (↑o : ℤ) > 0 ∧ (↑m : ℤ) < 7 ∨ (↑s.length : ℤ) ≤ (↑m : ℤ)) by
          omega)]
      push_neg at h1
      obtain ⟨h4, h7, hlen⟩ := h1
      by_cases h2 : o ≤ 4
      · rw [if_pos h2, if_pos (show (↑o : ℤ) ≤ 4 by omega),
          allAscii_rustSlice ha (Nat.zero_le _) (by omega)]
        simp
      · rw [if_neg h2, if_neg (show ¬((↑o : ℤ) ≤ 4) by omega)]
        push_neg at h2
        have hm7 : 7 ≤ m := h7 (by omega)
        by_cases h3 : o + m - 3 < s.length
        · rw [if_pos h3, if_pos (show (↑o : ℤ) + ↑m - 3 < (↑s.length : ℤ) by omega),
            allAscii_rustSlice ha (by omega) (by omega)]
          simp
        · rw [if_neg h3, if_neg (show ¬((↑o : ℤ) + ↑m - 3 < (↑s.length : ℤ)) by omega),
            allAscii_rustSlice ha (by omega) (le_refl _)]
          simp

/-- Witness for C4 at the claim's own scenario
`abbrevboth 5 7 "foobarfoobar" = "...r..."` (bytes of `"foobarfoobar"`,
result bytes of `"...r..."`). -/
theorem abbrevboth_spec_witness :
    abbrevboth 5 7 [102, 111, 111, 98, 97, 114, 102, 111, 111, 98, 97, 114] =
      some [46, 46, 46, 114, 46, 46, 46] :=
  (abbrevboth_spec 5 7 [102, 111, 111, 98, 97, 114, 102, 111, 111, 98, 97, 114]
    (by decide) (by decide) (by decide) (by decide) (by decide) (by decide)).trans (by decide)

/-- Counterexample for C4 as frozen: for `left = -1` the claim's
`offset = min(left, len s) = -1 ≤ 4` demands `"foob..."`, but the code
computes `offset` through the wrapping `i64 -> usize` cast, gets
`min(2^64 - 1, 12) = 12 > 4`, and returns `"...obar"` instead. -/
theorem abbrevboth_counterexample :
    abbrevboth (-1) 7 [102, 111, 111, 98, 97, 114, 102, 111, 111, 98, 97, 114] =
        some [46, 46, 46, 111, 98, 97, 114] ∧
      specAbbrevboth (-1) 7 [102, 111, 111, 98, 97, 114, 102, 111, 111, 98, 97, 114] =
        [102, 111, 111, 98, 46, 46, 46] ∧
      abbrevboth (-1) 7 [102, 111, 111, 98, 97, 114, 102, 111, 111, 98, 97, 114] ≠
        some (specAbbrevboth (-1) 7 [102, 111, 111, 98, 97, 114, 102, 111, 111, 98, 97, 114]) := by
  refine ⟨by decide, by decide, by decide⟩

/-!
## Character-level model

`trim` removes Unicode whitespace characters and `split` with an empty
pattern splits between characters, so these functions are modelled on
`List Char` (Rust guarantees the `String` is valid UTF-8, so the character
and byte views are interchangeable for literal-substring matching). -/

/-- Rust's `char::is_whitespace`: the Unicode `White_Space` code points. -/
def rustIsWhitespace (c : Char) : Bool :=
  decide (c.toNat = 9 ∨ c.toNat = 10 ∨ c.toNat = 11 ∨ c.toNat = 12 ∨ c.toNat = 13 ∨
    c.toNat = 32 ∨ c.toNat = 133 ∨ c.toNat = 160 ∨ c.toNat = 5760 ∨
    (8192 ≤ c.toNat ∧ c.toNat ≤ 8202) ∨ c.toNat = 8232 ∨ c.toNat = 8233 ∨
    c.toNat = 8239 ∨ c.toNat = 8287 ∨ c.toNat = 12288)

/-- Leading-whitespace removal (Rust `str::trim_start`). -/
def trimStart (s : List Char) : List Char :=
  s.dropWhile rustIsWhitespace

/-- Trailing-whitespace removal (Rust `str::trim_end`). -/
def trimEnd (s : List Char) : List Char :=
  (s.reverse.dropWhile rustIsWhitespace).reverse

/-- Function `trim` from `strings.rs` (lines 218-223): Rust `str::trim`, removing
leading and trailing whitespace. -/
def trim (s : List Char) : List Char :=
  trimEnd (trimStart s)

/-- Function `trim_suffix`'s loop (lines 234-240): Rust `trim_right_matches` strips
the literal pattern from the end *repeatedly*.  Each strip removes at least
one byte, so `s.length` steps of fuel always suffice. -/
def stripSuffixLoop (suf : List Nat) : Nat → List Nat → List Nat
  | 0, s => s
  | fuel + 1, s =>
    if suf ≠ [] ∧ List.IsSuffix suf s then
      stripSuffixLoop suf fuel (s.take (s.length - suf.length))
    else s

/-- Function `trim_suffix` from `strings.rs` (lines 234-240):
`s.trim_right_matches(&substr)`. -/
def trim_suffix (suf s : List Nat) : List Nat :=
  stripSuffixLoop suf s.length s

/-- Function `trim_prefix`'s loop (lines 242-247): Rust `trim_left_matches` strips
the literal pattern from the front repeatedly. -/
def stripPrefixLoop (pre : List Nat) : Nat → List Nat → List Nat
  | 0, s => s
  | fuel + 1, s =>
    if pre ≠ [] ∧ List.IsPrefix pre s then
      stripPrefixLoop pre fuel (s.drop pre.length)
    else s

/-- Function `trim_prefix` from `strings.rs` (lines 242-247):
`s.trim_left_matches(&substr)` (suffixed `_fn` for the embedding). -/
def trim_prefix_fn (pre s : List Nat) : List Nat :=
  stripPrefixLoop pre s.length s

/-- Index of the first occurrence of `sep` as a contiguous sublist of `s`
(the `str::find` underlying Rust's `split`). -/
def findSub (sep : List Char) : List Char → Option Nat
  | [] => if sep = [] then some 0 else none
  | c :: rest =>
    if List.IsPrefix sep (c :: rest) then some 0
    else (findSub sep rest).map (· + 1)

/-- The splitting loop of Rust's `str::split` for a non-empty pattern:
cut at the first occurrence and continue after it.  Each step consumes at
least one character, so `s.length + 1` steps of fuel always suffice. -/
def splitGo (sep : List Char) : Nat → List Char → List (List Char)
  | 0, s => [s]
  | fuel + 1, s =>
    match findSub sep s with
    | none => [s]
    | some i => s.take i :: splitGo sep fuel (s.drop (i + sep.length))

/-- The list of parts produced by Rust's `orig.split(&sep)` (lines 191-203),
in order.  An empty pattern matches at every character boundary, yielding an
empty part, each character singleton, and a final empty part. -/
def splitList (sep s : List Char) : List (List Char) :=
  if sep = [] then [[]] ++ s.map (fun c => [c]) ++ [[]]
  else splitGo sep (s.length + 1) s

/-- Function `split` from `strings.rs` (lines 191-203): the parts keyed `_0, _1, …`
in split order (the `HashMap` has exactly these distinct keys, so the
association list is a faithful model of it). -/
def splitMap (sep s : List Char) : List (String × List Char) :=
  (splitList sep s).enum.map fun p => ("_" ++ Nat.repr p.1, p.2)

/-- Function `itertools::join` as used by `join` (line 184): the parts concatenated
with `sep` between consecutive elements. -/
def joinSep (sep : List Char) : List (List Char) → List Char
  | [] => []
  | [p] => p
  | p :: q :: rest => p ++ sep ++ joinSep sep (q :: rest)

/-! ## Lemmas about dropWhile-based trimming -/

theorem dropWhile_dropWhile (p : Char → Bool) (l : List Char) :
    (l.dropWhile p).dropWhile p = l.dropWhile p := by
  induction l with
  | nil => rfl
  | cons a t ih =>
    by_cases h : p a
    · simp [List.dropWhile_cons, h, ih]
    · simp [List.dropWhile_cons, h]

theorem dropWhile_eq_cons_head_false {p : Char → Bool} {l t : List Char} {a : Char}
    (h : l.dropWhile p = a :: t) : p a = false := by
  induction l with
  | nil => simp at h
  | cons c r ih =>
    by_cases hc : p c
    · rw [List.dropWhile_cons, if_pos hc] at h
      exact ih h
    · rw [List.dropWhile_cons, if_neg hc] at h
      cases h
      simpa using hc

theorem dropWhile_append_last_false (p : Char → Bool) {a : Char} (ha : p a = false) :
    ∀ l : List Char, ∃ w, (l ++ [a]).dropWhile p = w ++ [a] := by
  intro l
  induction l with
  | nil => exact ⟨[], by simp [List.dropWhile_cons, ha]⟩
  | cons c t ih =>
    by_cases hc : p c
    · obtain ⟨w, hw⟩ := ih
      exact ⟨w, by simp [List.dropWhile_cons, hc, hw]⟩
    · exact ⟨c :: t, by simp [List.dropWhile_cons, hc]⟩

theorem trimStart_trimEnd_trimStart (s : List Char) :
    trimStart (trimEnd (trimStart s)) = trimEnd (trimStart s) := by
  rcases hu : trimStart s with _ | ⟨a, t⟩
  · simp [trimEnd, trimStart]
  · have ha : rustIsWhitespace a = false := dropWhile_eq_cons_head_false hu
    obtain ⟨w, hw⟩ := dropWhile_append_last_false rustIsWhitespace ha t.reverse
    unfold trimEnd
    rw [List.reverse_cons, hw, List.reverse_append]
    simp only [List.reverse_cons, List.reverse_nil, List.nil_append, List.singleton_append]
    unfold trimStart
    rw [List.dropWhile_cons, if_neg (by simp [ha])]

/-- C7 (confirmed).  Trimming leading and trailing whitespace is idempotent:
for every string `s`, `trim (trim s) = trim s`. -/
theorem trim_idempotent (s : List Char) : trim (trim s) = trim s := by
  unfold trim
  rw [trimStart_trimEnd_trimStart]
  unfold trimEnd
  rw [List.reverse_reverse, dropWhile_dropWhile]

/-! ## C2: trim_suffix / trim_prefix -/

/-- C2 (code bug evidence).  The claim (and the Rust doc comment pointing at
Go's `strings.TrimSuffix`) says at most one occurrence of the suffix
(prefix) is removed, so `trimSuffix "-" "a--"` should be `"a-"` and
`trimPrefix "-" "--a"` should be `"-a"`; the code instead uses
`trim_right_matches` / `trim_left_matches`, which strip *every* trailing
(leading) occurrence and return `"a"` in both cases. -/
theorem trim_suffix_strips_all :
    trim_suffix [45] [97, 45, 45] = [97] ∧ trim_prefix_fn [45] [45, 45, 97] = [97] := by
  exact ⟨by decide, by decide⟩

/-! ## Lemmas about split and join -/

theorem findSub_isPre {sep : List Char} :
    ∀ {s : List Char} {i : Nat}, findSub sep s = some i → List.IsPrefix sep (s.drop i) := by
  intro s
  induction s with
  | nil =>
    intro i h
    unfold findSub at h
    by_cases hsep : sep = []
    · rw [if_pos hsep] at h
      cases h
      simp [hsep]
    · rw [if_neg hsep] at h
      cases h
  | cons c rest ih =>
    intro i h
    unfold findSub at h
    by_cases hp : List.IsPrefix sep (c :: rest)
    · rw [if_pos hp] at h
      cases h
      simpa using hp
    · rw [if_neg hp] at h
      rcases hrec : findSub sep rest with _ | j
      · rw [hrec] at h
        cases h
      · rw [hrec] at h
        cases h
        simpa using ih hrec

theorem joinSep_cons (sep p : List Char) {L : List (List Char)} (h : L ≠ []) :
    joinSep sep (p :: L) = p ++ sep ++ joinSep sep L := by
  cases L with
  | nil => exact absurd rfl h
  | cons q t => rfl

theorem splitGo_ne_nil (sep : List Char) (fuel : Nat) (s : List Char) :
    splitGo sep fuel s ≠ [] := by
  cases fuel with
  | zero => simp [splitGo]
  | succ fuel =>
    unfold splitGo
    rcases findSub sep s with _ | i <;> simp

theorem splitGo_join (sep : List Char) (hsep : sep ≠ []) :
    ∀ (fuel : Nat) (s : List Char), s.length < fuel →
      joinSep sep (splitGo sep fuel s) = s := by
  intro fuel
  induction fuel with
  | zero => omega
  | succ fuel ih =>
    intro s hf
    unfold splitGo
    rcases hfind : findSub sep s with _ | i
    · rfl
    · have hpre := findSub_isPre hfind
      have hsl : 1 ≤ sep.length := by
        cases sep with
        | nil => exact absurd rfl hsep
        | cons a t => simp
      have hlen : i + sep.length ≤ s.length := by
        have := hpre.length_le
        rw [List.length_drop] at this
        omega
      rw [joinSep_cons sep _ (splitGo_ne_nil sep fuel _),
        ih (s.drop (i + sep.length)) (by rw [List.length_drop]; omega)]
      obtain ⟨t, ht⟩ := hpre
      have hdrop : s.drop (i + sep.length) = t := by
        have h2 : (s.drop i).drop sep.length = t := by
          rw [← ht, List.drop_left]
        rw [List.drop_drop] at h2
        exact h2
      rw [hdrop, List.append_assoc, ht, List.take_append_drop]

theorem joinSep_nil_sep (s : List Char) :
    joinSep [] (s.map (fun c => [c]) ++ [[]]) = s := by
  induction s with
  | nil => rfl
  | cons c t ih =>
    have hne : t.map (fun c => [c]) ++ [[]] ≠ [] := by simp
    rw [List.map_cons, List.cons_append, joinSep_cons [] [c] hne, ih]
    rfl

theorem splitMap_snd (sep s : List Char) :
    (splitMap sep s).map Prod.snd = splitList sep s := by
  unfold splitMap
  rw [List.map_map]
  have hcomp : (Prod.snd ∘ fun p : Nat × List Char => ("_" ++ Nat.repr p.1, p.2)) =
      Prod.snd := rfl
  rw [hcomp, List.enum_map_snd]

/-! ## C6: split followed by join reconstructs the string -/

/-- C6 (confirmed, with no side condition needed at all).  For every
separator `sep` and every string `s`, splitting `s` and joining the parts —
the values of the returned map ordered by their `_N` keys, which is exactly
their construction order — with the same separator reconstructs `s`
exactly.  This holds even for an empty or "ambiguously adjacent" separator,
so in particular it holds under the claim's proviso. -/
theorem split_join_roundtrip (sep s : List Char) :
    joinSep sep ((splitMap sep s).map Prod.snd) = s := by
  rw [splitMap_snd]
  unfold splitList
  by_cases hsep : sep = []
  · subst hsep
    rw [if_pos rfl]
    have hne : s.map (fun c => [c]) ++ [[]] ≠ [] := by simp
    have hform : ([[]] ++ s.map (fun c => [c]) ++ [[]] : List (List Char)) =
        [] :: (s.map (fun c => [c]) ++ [[]]) := by simp
    rw [hform, joinSep_cons [] [] hne, joinSep_nil_sep]
    rfl
  · rw [if_neg hsep]
    exact splitGo_join sep hsep (s.length + 1) s (by omega)

/-! ## C10: the shape of the split map -/

theorem splitList_ne_nil (sep s : List Char) : splitList sep s ≠ [] := by
  unfold splitList
  by_cases hsep : sep = []
  · rw [if_pos hsep]
    simp
  · rw [if_neg hsep]
    exact splitGo_ne_nil sep (s.length + 1) s

/-- C10 (corrected).  For every separator and every string the map returned
by `split` is non-empty and contains the key `"_0"`, and for every
*non-empty* separator `split sep ""` is the single-entry map taking `"_0"` to `""`.
For the empty separator, however, Rust's empty pattern matches the empty
string once, so `split "" ""` has the two entries `"_0" : ""` and
`"_1" : ""` (see the counterexample). -/
theorem splitMap_shape (sep s : List Char) :
    splitMap sep s ≠ [] ∧ (∃ v, ("_0", v) ∈ splitMap sep s) ∧
      (sep ≠ [] → splitMap sep [] = [("_0", [])]) := by
  refine ⟨?_, ?_, ?_⟩
  · unfold splitMap
    simp [splitList_ne_nil sep s]
  · rcases hl : splitList sep s with _ | ⟨p, L⟩
    · exact absurd hl (splitList_ne_nil sep s)
    · refine ⟨p, ?_⟩
      unfold splitMap
      rw [hl]
      have hk : "_" ++ Nat.repr 0 = "_0" := rfl
      have h0 : ("_0", p) = ("_" ++ Nat.repr 0, p) := by rw [hk]
      rw [h0]
      exact List.mem_map_of_mem _ (List.mem_cons_self _ _)
  · intro hsep
    unfold splitMap splitList
    rw [if_neg hsep]
    have hgo : splitGo sep (([] : List Char).length + 1) [] = [[]] := by
      show splitGo sep 1 [] = [[]]
      unfold splitGo
      have hfind : findSub sep [] = none := by
        unfold findSub
        rw [if_neg hsep]
      rw [hfind]
    rw [hgo]
    rfl

/-- Witness for C10 at the non-empty separator `"x"`:
`split "x" ""` is the single-entry map taking `"_0"` to `""`. -/
theorem splitMap_shape_witness : splitMap ['x'] [] = [("_0", [])] :=
  (splitMap_shape ['x'] []).2.2 (by decide)

/-- Counterexample for C10 as frozen: with the empty separator,
`split "" ""` is the two-entry map taking both `"_0"` and `"_1"` to `""`, not the
claimed single-entry map. -/
theorem splitMap_empty_sep_counterexample :
    splitMap [] [] = [("_0", []), ("_1", [])] ∧ splitMap [] [] ≠ [("_0", [])] := by
  exact ⟨by decide, by decide⟩

/-!
## Dynamic values and the `join` function

`join` (lines 168-189) is written directly against the engine's dynamic
values (`gtmpl_value::Value` behind `Arc<Any>`).  The variants relevant to
the string library are modelled; `fromValueString` is `from_value::<String>`
(succeeding exactly on the `String` variant) and `toStringV` is the
`Display` form used by `join` for the array elements. -/

inductive GValue : Type where
  | nil : GValue
  | bool : Bool → GValue
  | str : List Char → GValue
  | number : Int → GValue
  | array : List GValue → GValue

mutual

def toStringV : GValue → List Char
  | GValue.nil => "nil".toList
  | GValue.bool true => "true".toList
  | GValue.bool false => "false".toList
  | GValue.str s => s
  | GValue.number n => n.repr.toList
  | GValue.array vs => '[' :: (toStringArr vs ++ [']'])

def toStringArr : List GValue → List Char
  | [] => []
  | [v] => toStringV v
  | v :: w :: rest => toStringV v ++ ", ".toList ++ toStringArr (w :: rest)

end

/-- Function `gtmpl_value::from_value::<String>`: only the `String` variant converts. -/
def fromValueString : GValue → Option (List Char)
  | GValue.str s => some s
  | _ => none

/-- Function `join` from `strings.rs` (lines 168-189): arity check, conversion of the
first argument to a string separator, check that the second argument is an
`Array`, then the elements' string forms joined with the separator. -/
def join (args : List GValue) : Except String GValue :=
  if args.length ≠ 2 then Except.error "two arguments required"
  else
    match args with
    | [a0, a1] =>
      match fromValueString a0 with
      | none => Except.error "unable to convert from Value"
      | some sep =>
        match a1 with
        | GValue.array list => Except.ok (GValue.str (joinSep sep (list.map toStringV)))
        | _ => Except.error "second argument must be of type Array"
    | _ => Except.error "two arguments required"

/-- C8 (confirmed).  `join` returns an error value — never an uncaught
fault, since it is a total function into `Except` — whenever its argument
list does not have exactly two elements or the second argument is not the
`Array` variant; and when the second argument is an array (and the first
converts to the separator string `sep`), it returns the string forms of the
elements concatenated with `sep` between them. -/
theorem join_spec :
    (∀ args : List GValue, args.length ≠ 2 → ∃ e, join args = Except.error e) ∧
    (∀ v0 v1 : GValue, (∀ l, v1 ≠ GValue.array l) → ∃ e, join [v0, v1] = Except.error e) ∧
    (∀ (v0 : GValue) (sep : List Char) (l : List GValue), fromValueString v0 = some sep →
      join [v0, GValue.array l] = Except.ok (GValue.str (joinSep sep (l.map toStringV)))) := by
  refine ⟨?_, ?_, ?_⟩
  · intro args h
    exact ⟨"two arguments required", by unfold join; rw [if_pos h]⟩
  · intro v0 v1 hv1
    rcases h0 : fromValueString v0 with _ | sep
    · exact ⟨"unable to convert from Value", by simp [join, h0]⟩
    · cases v1 with
      | array l => exact absurd rfl (hv1 l)
      | nil => exact ⟨"second argument must be of type Array", by simp [join, h0]⟩
      | bool b => exact ⟨"second argument must be of type Array", by simp [join, h0]⟩
      | str t => exact ⟨"second argument must be of type Array", by simp [join, h0]⟩
      | number n => exact ⟨"second argument must be of type Array", by simp [join, h0]⟩
  · intro v0 sep l h0
    simp [join, h0]

/-- Witness for C8: no arguments is an arity error; a `Nil` second argument
is a type error; and `join "," ["a", "b"]` is `"a,b"` (the test scenario
`join "_" ["hello", "world"]` in miniature). -/
theorem join_spec_witness :
    (∃ e, join [] = Except.error e) ∧
    (∃ e, join [GValue.str [','], GValue.nil] = Except.error e) ∧
    join [GValue.str [','], GValue.array [GValue.str ['a'], GValue.str ['b']]] =
      Except.ok (GValue.str ['a', ',', 'b']) := by
  refine ⟨join_spec.1 [] (by simp), join_spec.2.1 _ GValue.nil (fun l => by simp), ?_⟩
  have h := join_spec.2.2 (GValue.str [',']) [','] [GValue.str ['a'], GValue.str ['b']] rfl
  rw [h]
  congr 1

/-!
## Base-64 and base-32 (data_encoding's BASE64 / BASE32)

RFC 4648 with canonical `=` padding; decoding rejects bad lengths, symbols
outside the alphabet, padding anywhere but the end, and non-zero trailing
bits, exactly as `data_encoding`'s `BASE64.decode` / `BASE32.decode` do.
Everything is on bytes; `61` is `'='`. -/

/-- The base-64 alphabet `A-Z a-z 0-9 + /` as ASCII bytes. -/
def b64alphabet : List Nat :=
  [65, 66, 67, 68, 69, 70, 71, 72, 73, 74, 75, 76, 77, 78, 79, 80, 81, 82,
   83, 84, 85, 86, 87, 88, 89, 90,
   97, 98, 99, 100, 101, 102, 103, 104, 105, 106, 107, 108, 109, 110, 111,
   112, 113, 114, 115, 116, 117, 118, 119, 120, 121, 122,
   48, 49, 50, 51, 52, 53, 54, 55, 56, 57, 43, 47]

/-- Symbol for a 6-bit value. -/
def sym64 (v : Nat) : Nat := b64alphabet.getD v 0

/-- Index of a byte in the base-64 alphabet, if any. -/
def inv64 (c : Nat) : Option Nat := b64alphabet.indexOf? c

/-- The base-32 alphabet `A-Z 2-7` as ASCII bytes. -/
def b32alphabet : List Nat :=
  [65, 66, 67, 68, 69, 70, 71, 72, 73, 74, 75, 76, 77, 78, 79, 80, 81, 82,
   83, 84, 85, 86, 87, 88, 89, 90, 50, 51, 52, 53, 54, 55]

/-- Symbol for a 5-bit value. -/
def sym32 (v : Nat) : Nat := b32alphabet.getD v 0

/-- Index of a byte in the base-32 alphabet, if any. -/
def inv32 (c : Nat) : Option Nat := b32alphabet.indexOf? c

/-- RFC 4648 base-64 encoding of a byte list: 3-byte groups become 4
symbols; a final 1- or 2-byte group is padded with `=`. -/
def encode64 : List Nat → List Nat
  | [] => []
  | [a] => [sym64 (a / 4), sym64 (a % 4 * 16), 61, 61]
  | [a, b] => [sym64 (a / 4), sym64 (a % 4 * 16 + b / 16), sym64 (b % 16 * 4), 61]
  | a :: b :: c :: rest =>
    sym64 (a / 4) :: sym64 (a % 4 * 16 + b / 16) :: sym64 (b % 16 * 4 + c / 64) ::
      sym64 (c % 64) :: encode64 rest

/-- RFC 4648 base-64 decoding: the input length must be a multiple of 4,
padding may appear only in the last chunk (in the last one or two places),
and the unused trailing bits of the last symbol must be zero. -/
def decode64 : List Nat → Option (List Nat)
  | [] => some []
  | w :: x :: y :: z :: rest =>
    if z = 61 then
      if rest = [] then
        if y = 61 then
          match inv64 w, inv64 x with
          | some v0, some v1 =>
            if v1 % 16 = 0 then some [v0 * 4 + v1 / 16] else none
          | _, _ => none
        else
          match inv64 w, inv64 x, inv64 y with
          | some v0, some v1, some v2 =>
            if v2 % 4 = 0 then some [v0 * 4 + v1 / 16, v1 % 16 * 16 + v2 / 4] else none
          | _, _, _ => none
      else none
    else
      match inv64 w, inv64 x, inv64 y, inv64 z with
      | some v0, some v1, some v2, some v3 =>
        (decode64 rest).map fun bs =>
          (v0 * 4 + v1 / 16) :: (v1 % 16 * 16 + v2 / 4) :: (v2 % 4 * 64 + v3) :: bs
      | _, _, _, _ => none
  | _ => none

/-- Function `base64encode` from `strings.rs` (lines 14-19): always succeeds. -/
def base64encode (s : List Nat) : List Nat := encode64 s

/-- Function `base64decode` from `strings.rs` (lines 21-33): decode, then require the
result to be valid UTF-8 (`str::from_utf8`). -/
def base64decode (t : List Nat) : Except String (List Nat) :=
  match decode64 t with
  | none => Except.error "unable to decode"
  | some v => if validUTF8 v then Except.ok v else Except.error "unable to decode"

/-- RFC 4648 base-32 encoding: 5-byte groups become 8 symbols; final groups
of 1, 2, 3 or 4 bytes are padded with 6, 4, 3 or 1 `=`. -/
def encode32 : List Nat → List Nat
  | [] => []
  | [a] => [sym32 (a / 8), sym32 (a % 8 * 4), 61, 61, 61, 61, 61, 61]
  | [a, b] =>
    [sym32 (a / 8), sym32 (a % 8 * 4 + b / 64), sym32 (b / 2 % 32), sym32 (b % 2 * 16),
     61, 61, 61, 61]
  | [a, b, c] =>
    [sym32 (a / 8), sym32 (a % 8 * 4 + b / 64), sym32 (b / 2 % 32),
     sym32 (b % 2 * 16 + c / 16), sym32 (c % 16 * 2), 61, 61, 61]
  | [a, b, c, d] =>
    [sym32 (a / 8), sym32 (a % 8 * 4 + b / 64), sym32 (b / 2 % 32),
     sym32 (b % 2 * 16 + c / 16), sym32 (c % 16 * 2 + d / 128), sym32 (d / 4 % 32),
     sym32 (d % 4 * 8), 61]
  | a :: b :: c :: d :: e :: rest =>
    sym32 (a / 8) :: sym32 (a % 8 * 4 + b / 64) :: sym32 (b / 2 % 32) ::
      sym32 (b % 2 * 16 + c / 16) :: sym32 (c % 16 * 2 + d / 128) :: sym32 (d / 4 % 32) ::
      sym32 (d % 4 * 8 + e / 32) :: sym32 (e % 32) :: encode32 rest

/-- RFC 4648 base-32 decoding, with the same canonical-form checks as
`decode64` (length a multiple of 8, padding only at the end in one of the
four legal shapes, zero trailing bits). -/
def decode32 : List Nat → Option (List Nat)
  | [] => some []
  | c0 :: c1 :: c2 :: c3 :: c4 :: c5 :: c6 :: c7 :: rest =>
    if c7 = 61 then
      if rest = [] then
        if c2 = 61 then
          if c3 = 61 ∧ c4 = 61 ∧ c5 = 61 ∧ c6 = 61 then
            match inv32 c0, inv32 c1 with
            | some v0, some v1 =>
              if v1 % 4 = 0 then some [v0 * 8 + v1 / 4] else none
            | _, _ => none
          else none
        else if c4 = 61 then
          if c5 = 61 ∧ c6 = 61 then
            match inv32 c0, inv32 c1, inv32 c2, inv32 c3 with
            | some v0, some v1, some v2, some v3 =>
              if v3 % 16 = 0 then
                some [v0 * 8 + v1 / 4, v1 % 4 * 64 + v2 * 2 + v3 / 16]
              else none
            | _, _, _, _ => none
          else none
        else if c5 = 61 then
          if c6 = 61 then
            match inv32 c0, inv32 c1, inv32 c2, inv32 c3, inv32 c4 with
            | some v0, some v1, some v2, some v3, some v4 =>
              if v4 % 2 = 0 then
                some [v0 * 8 + v1 / 4, v1 % 4 * 64 + v2 * 2 + v3 / 16,
                  v3 % 16 * 16 + v4 / 2]
              else none
            | _, _, _, _, _ => none
          else none
        else
          match inv32 c0, inv32 c1, inv32 c2, inv32 c3, inv32 c4, inv32 c5, inv32 c6 with
          | some v0, some v1, some v2, some v3, some v4, some v5, some v6 =>
            if v6 % 8 = 0 then
              some [v0 * 8 + v1 / 4, v1 % 4 * 64 + v2 * 2 + v3 / 16,
                v3 % 16 * 16 + v4 / 2, v4 % 2 * 128 + v5 * 4 + v6 / 8]
            else none
          | _, _, _, _, _, _, _ => none
      else none
    else
      match inv32 c0, inv32 c1, inv32 c2, inv32 c3, inv32 c4, inv32 c5, inv32 c6,
          inv32 c7 with
      | some v0, some v1, some v2, some v3, some v4, some v5, some v6, some v7 =>
        (decode32 rest).map fun bs =>
          (v0 * 8 + v1 / 4) :: (v1 % 4 * 64 + v2 * 2 + v3 / 16) :: (v3 % 16 * 16 + v4 / 2) ::
            (v4 % 2 * 128 + v5 * 4 + v6 / 8) :: (v6 % 8 * 32 + v7) :: bs
      | _, _, _, _, _, _, _, _ => none
  | _ => none

/-- Function `base32encode` from `strings.rs` (lines 35-40): always succeeds. -/
def base32encode (s : List Nat) : List Nat := encode32 s

/-- Function `base32decode` from `strings.rs` (lines 42-54): decode, then require the
result to be valid UTF-8. -/
def base32decode (t : List Nat) : Except String (List Nat) :=
  match decode32 t with
  | none => Except.error "unable to decode"
  | some v => if validUTF8 v then Except.ok v else Except.error "unable to decode"

/-! ## Round-trip lemmas for the encodings -/

theorem inv64_sym64 : ∀ v : Nat, v < 64 → inv64 (sym64 v) = some v := by decide

theorem sym64_ne_pad : ∀ v : Nat, v < 64 → sym64 v ≠ 61 := by decide

theorem inv32_sym32 : ∀ v : Nat, v < 32 → inv32 (sym32 v) = some v := by decide

theorem sym32_ne_pad : ∀ v : Nat, v < 32 → sym32 v ≠ 61 := by decide

theorem decode64_encode64 :
    ∀ s : List Nat, (∀ b ∈ s, b < 256) → decode64 (encode64 s) = some s := by
  intro s
  induction s using encode64.induct with
  | case1 => intro _; rfl
  | case2 a =>
    intro hb
    have ha : a < 256 := hb a (by simp)
    have h0 := inv64_sym64 (a / 4) (by omega)
    have h1 := inv64_sym64 (a % 4 * 16) (by omega)
    simp [encode64, decode64, h0, h1, Nat.mul_mod_left]
    omega
  | case3 a b =>
    intro hb
    have ha : a < 256 := hb a (by simp)
    have hb' : b < 256 := hb b (by simp)
    have h0 := inv64_sym64 (a / 4) (by omega)
    have h1 := inv64_sym64 (a % 4 * 16 + b / 16) (by omega)
    have h2 := inv64_sym64 (b % 16 * 4) (by omega)
    have hy := sym64_ne_pad (b % 16 * 4) (by omega)
    simp [encode64, decode64, h0, h1, h2, hy, Nat.mul_mod_left]
    omega
  | case4 a b c rest ih =>
    intro hb
    have ha : a < 256 := hb a (by simp)
    have hb' : b < 256 := hb b (by simp)
    have hc : c < 256 := hb c (by simp)
    have hrest : ∀ x ∈ rest, x < 256 := fun x hx => hb x (by simp [hx])
    have h0 := inv64_sym64 (a / 4) (by omega)
    have h1 := inv64_sym64 (a % 4 * 16 + b / 16) (by omega)
    have h2 := inv64_sym64 (b % 16 * 4 + c / 64) (by omega)
    have h3 := inv64_sym64 (c % 64) (by omega)
    have hz := sym64_ne_pad (c % 64) (by omega)
    simp [encode64, decode64, h0, h1, h2, h3, hz, ih hrest]
    omega

theorem decode32_encode32 :
    ∀ s : List Nat, (∀ b ∈ s, b < 256) → decode32 (encode32 s) = some s := by
  intro s
  induction s using encode32.induct with
  | case1 => intro _; rfl
  | case2 a =>
    intro hb
    have ha : a < 256 := hb a (by simp)
    have h0 := inv32_sym32 (a / 8) (by omega)
    have h1 := inv32_sym32 (a % 8 * 4) (by omega)
    simp [encode32, decode32, h0, h1, Nat.mul_mod_left]
    omega
  | case3 a b =>
    intro hb
    have ha : a < 256 := hb a (by simp)
    have hb' : b < 256 := hb b (by simp)
    have h0 := inv32_sym32 (a / 8) (by omega)
    have h1 := inv32_sym32 (a % 8 * 4 + b / 64) (by omega)
    have h2 := inv32_sym32 (b / 2 % 32) (by omega)
    have h3 := inv32_sym32 (b % 2 * 16) (by omega)
    have hy := sym32_ne_pad (b / 2 % 32) (by omega)
    simp [encode32, decode32, h0, h1, h2, h3, hy, Nat.mul_mod_left]
    omega
  | case4 a b c =>
    intro hb
    have ha : a < 256 := hb a (by simp)
    have hb' : b < 256 := hb b (by simp)
    have hc : c < 256 := hb c (by simp)
    have h0 := inv32_sym32 (a / 8) (by omega)
    have h1 := inv32_sym32 (a % 8 * 4 + b / 64) (by omega)
    have h2 := inv32_sym32 (b / 2 % 32) (by omega)
    have h3 := inv32_sym32 (b % 2 * 16 + c / 16) (by omega)
    have h4 := inv32_sym32 (c % 16 * 2) (by omega)
    have hy2 := sym32_ne_pad (b / 2 % 32) (by omega)
    have hy4 := sym32_ne_pad (c % 16 * 2) (by omega)
    simp [encode32, decode32, h0, h1, h2, h3, h4, hy2, hy4, Nat.mul_mod_left]
    omega
  | case5 a b c d =>
    intro hb
    have ha : a < 256 := hb a (by simp)
    have hb' : b < 256 := hb b (by simp)
    have hc : c < 256 := hb c (by simp)
    have hd : d < 256 := hb d (by simp)
    have h0 := inv32_sym32 (a / 8) (by omega)
    have h1 := inv32_sym32 (a % 8 * 4 + b / 64) (by omega)
    have h2 := inv32_sym32 (b / 2 % 32) (by omega)
    have h3 := inv32_sym32 (b % 2 * 16 + c / 16) (by omega)
    have h4 := inv32_sym32 (c % 16 * 2 + d / 128) (by omega)
    have h5 := inv32_sym32 (d / 4 % 32) (by omega)
    have h6 := inv32_sym32 (d % 4 * 8) (by omega)
    have hy2 := sym32_ne_pad (b / 2 % 32) (by omega)
    have hy4 := sym32_ne_pad (c % 16 * 2 + d / 128) (by omega)
    have hy5 := sym32_ne_pad (d / 4 % 32) (by omega)
    simp [encode32, decode32, h0, h1, h2, h3, h4, h5, h6, hy2, hy4, hy5, Nat.mul_mod_left]
    omega
  | case6 a b c d e rest ih =>
    intro hb
    have ha : a < 256 := hb a (by simp)
    have hb' : b < 256 := hb b (by simp)
    have hc : c < 256 := hb c (by simp)
    have hd : d < 256 := hb d (by simp)
    have he : e < 256 := hb e (by simp)
    have hrest : ∀ x ∈ rest, x < 256 := fun x hx => hb x (by simp [hx])
    have h0 := inv32_sym32 (a / 8) (by omega)
    have h1 := inv32_sym32 (a % 8 * 4 + b / 64) (by omega)
    have h2 := inv32_sym32 (b / 2 % 32) (by omega)
    have h3 := inv32_sym32 (b % 2 * 16 + c / 16) (by omega)
    have h4 := inv32_sym32 (c % 16 * 2 + d / 128) (by omega)
    have h5 := inv32_sym32 (d / 4 % 32) (by omega)
    have h6 := inv32_sym32 (d % 4 * 8 + e / 32) (by omega)
    have h7 := inv32_sym32 (e % 32) (by omega)
    have hz := sym32_ne_pad (e % 32) (by omega)
    simp [encode32, decode32, h0, h1, h2, h3, h4, h5, h6, h7, hz, ih hrest]
    omega

/-! ## C3: encode-decode round trips -/

/-- C3 (confirmed).  For every valid-UTF-8 string `s` (given as its bytes,
each `< 256`), `base64decode (base64encode s)` succeeds and returns `s`
exactly, and likewise `base32decode (base32encode s)`. -/
theorem base64_base32_roundtrip (s : List Nat) (hb : ∀ b ∈ s, b < 256)
    (hu : validUTF8 s = true) :
    base64decode (base64encode s) = Except.ok s ∧
      base32decode (base32encode s) = Except.ok s := by
  constructor
  · unfold base64decode base64encode
    rw [decode64_encode64 s hb]
    simp [hu]
  · unfold base32decode base32encode
    rw [decode32_encode32 s hb]
    simp [hu]

/-- Witness for C3 at `s = "Hi"` (bytes `[72, 105]`). -/
theorem base64_base32_roundtrip_witness :
    base64decode (base64encode [72, 105]) = Except.ok [72, 105] ∧
      base32decode (base32encode [72, 105]) = Except.ok [72, 105] :=
  base64_base32_roundtrip [72, 105] (by decide) (by decide)
